import Mathlib

/-!
Shallow embedding of the `vex` static-analysis engine's core
(`src/main.rs`, `src/source_file.rs`, `src/scriptlets/node.rs`) and proofs
of the specification claims about it.

External collaborators (the tree-sitter parser library, the starlark
runtime, the file system) are modelled as explicit capability functions;
the engine's own control flow is translated function-by-function from the
Rust source.
-/

namespace Vex

/-- Supported languages are identified abstractly by name
(`supported_language.rs` is outside the surveyed sources). -/
abbrev Lang := String

/-- Model of `tree_sitter::Point` (row, column; both 0-indexed). -/
structure Point where
  row : Nat
  column : Nat
deriving DecidableEq, Repr

/-- Model of a `tree_sitter::Node` handle: its `id()` together with its
parser-reported `start_position()` and `end_position()`.  The tree-sitter
Rust binding compares two nodes by `id` alone. -/
structure TSNode where
  id : Nat
  startPosition : Point
  endPosition : Point
deriving DecidableEq, Repr

/-- Equality of `tree_sitter::Node` values as implemented by the tree-sitter
binding: comparison of the node ids. -/
def TSNode.eqTS (a b : TSNode) : Bool :=
  a.id == b.id

/-- Model of a `tree_sitter::Tree`: whether its root node `has_error()`,
plus an id for the root node. -/
structure Tree where
  rootId : Nat
  hasError : Bool
deriving DecidableEq, Repr

/-- `Location` from `src/scriptlets/node.rs`: 0-indexed start/end row and
column of a captured node. -/
structure Location where
  start_row : Nat
  start_column : Nat
  end_row : Nat
  end_column : Nat
deriving DecidableEq, Repr

/-- Sort key realising the derived `Ord` on `Location` (`node.rs` derives
`PartialOrd, Ord`, which is lexicographic in field declaration order:
`start_row`, `start_column`, `end_row`, `end_column`). -/
def Location.key (l : Location) : Nat ×ₗ Nat ×ₗ Nat ×ₗ Nat :=
  toLex (l.start_row, toLex (l.start_column, toLex (l.end_row, l.end_column)))

instance : LinearOrder Location :=
  LinearOrder.lift' Location.key (by
    rintro ⟨a, b, c, d⟩ ⟨a', b', c', d'⟩ h
    simpa [Location.key, Prod.ext_iff] using h)

/-- Display form of a `Location` (the `Display` impl in `node.rs`:
`write!(f, "[{start_row}, {start_column}] - [{end_row}, {end_column}]")`). -/
def Location.display (l : Location) : String :=
  "[" ++ toString l.start_row ++ ", " ++ toString l.start_column ++ "] - [" ++
    toString l.end_row ++ ", " ++ toString l.end_column ++ "]"

/-- Modelled from the spec: an `Irritation` (diagnostic) is a message with an
attached location in a file, total-ordered primarily by file path, then
location, then message (`irritation.rs` is outside the surveyed sources;
only this ordering contract is needed here). -/
structure Irritation where
  path : String
  loc : Location
  message : String
deriving DecidableEq, Repr

/-- Sort key for the total order on `Irritation`: file path, then location,
then message, lexicographically. -/
def Irritation.key (i : Irritation) : String ×ₗ Location ×ₗ String :=
  toLex (i.path, toLex (i.loc, i.message))

instance : LinearOrder Irritation :=
  LinearOrder.lift' Irritation.key (by
    rintro ⟨a, b, c⟩ ⟨a', b', c'⟩ h
    simpa [Irritation.key, Prod.ext_iff] using h)

/-- `ParsedSourceFile` from `src/source_file.rs`: path, raw content, detected
language and parsed tree.  (`SourcePath` is collapsed to its pretty path;
the absolute/pretty distinction only affects messages.) -/
structure ParsedSourceFile where
  path : String
  content : String
  language : Lang
  tree : Tree
deriving DecidableEq, Repr

/-- Equality of `ParsedSourceFile` as implemented in `source_file.rs`:
`(&self.path, &self.content, self.language) == (&other.path, &other.content,
other.language)` — the tree is not compared. -/
def ParsedSourceFile.eqPS (a b : ParsedSourceFile) : Bool :=
  a.path == b.path && a.content == b.content && a.language == b.language

/-- `Node` from `src/scriptlets/node.rs`: a tree-sitter node handle together
with (a reference to) its parsed source file. -/
structure Node where
  ts_node : TSNode
  source_file : ParsedSourceFile
deriving Repr

/-- Equality of `Node` as derived in `node.rs` (`#[derive(PartialEq)]` on the
two fields: tree-sitter node equality on `ts_node`, i.e. id comparison, and
`ParsedSourceFile` equality on `source_file`).  The starlark `equals` method
applies exactly this comparison when the other value is a `Node`. -/
def Node.eqNode (a b : Node) : Bool :=
  TSNode.eqTS a.ts_node b.ts_node && ParsedSourceFile.eqPS a.source_file b.source_file

/-- Value fed to the hasher by `write_hash` in `node.rs`:
`hasher.write_usize(self.id())`. -/
def Node.hashInput (n : Node) : Nat :=
  n.ts_node.id

/-- `Location::of` from `node.rs`: copies the node's parser-reported
`start_position()` and `end_position()` into the four fields. -/
def Location.of (n : Node) : Location :=
  { start_row := n.ts_node.startPosition.row
    start_column := n.ts_node.startPosition.column
    end_row := n.ts_node.endPosition.row
    end_column := n.ts_node.endPosition.column }

/-! ### Source discovery (`walkdir` in `src/main.rs`) -/

/-- Compiled `FilePattern` (from `trigger.rs`, an external collaborator
here): a predicate on the project-relative path. -/
abbrev FilePattern := String → Bool

/-- A directory entry as reported by `fs::read_dir` + `fs::symlink_metadata`:
a regular file, a symbolic link, or a directory with its own entries.
Entry names contain no path separator. -/
inductive FSEntry where
  | file (name : String)
  | symlink (name : String)
  | dir (name : String) (entries : List FSEntry)
deriving Repr

/-- Base name of an entry (its `file_name()`). -/
def FSEntry.name : FSEntry → String
  | .file n => n
  | .symlink n => n
  | .dir n _ => n

/-- Project-relative path of a child entry: the parent's project-relative
path (`""` for the project root) followed by `/` and the entry name, exactly
as `&entry_path.as_str()[ctx.project_root.as_str().len()..]` computes it. -/
def childPath (rel name : String) : String :=
  rel ++ "/" ++ name

/-- The hidden-entry test `name.starts_with('.')`: whether the first
character of the base name is `.`. -/
def startsWithDot (name : String) : Bool :=
  match name.data with
  | [] => false
  | c :: _ => c == '.'

/-- The skip test of `walkdir` (`main.rs` lines 312–323): an entry is
skipped when no allow pattern matches its project-relative path and either
its base name starts with `.` or some ignore pattern matches. -/
def skipped (ignores allows : List FilePattern) (relPath name : String) : Bool :=
  !(allows.any fun p => p relPath) &&
    (startsWithDot name || ignores.any fun p => p relPath)

/-- The recursive walk of `walkdir` over the entries of one directory
(`rel` is the directory's project-relative path): skipped entries are
dropped entirely (directories pruned), symlinks are only logged, directories
are recursed into, and regular files are collected. -/
def walkForest (ignores allows : List FilePattern) : String → List FSEntry → List String
  | _, [] => []
  | rel, .file name :: rest =>
      (if skipped ignores allows (childPath rel name) name then []
       else [childPath rel name]) ++ walkForest ignores allows rel rest
  | rel, .symlink _ :: rest =>
      walkForest ignores allows rel rest
  | rel, .dir name entries :: rest =>
      (if skipped ignores allows (childPath rel name) name then []
       else walkForest ignores allows (childPath rel name) entries) ++
        walkForest ignores allows rel rest

/-- What `walkdir` does with one entry that passed the filter: symlinks are
never followed, directories are recursed into, regular files are pushed. -/
def visitEntry (ignores allows : List FilePattern) (rel : String) : FSEntry → List String
  | .file name => [childPath rel name]
  | .symlink _ => []
  | .dir name entries => walkForest ignores allows (childPath rel name) entries

/-- All regular-file paths of a forest, with no filtering at all (reference
function for stating that discovery only ever yields regular files). -/
def regularFiles : String → List FSEntry → List String
  | _, [] => []
  | rel, .file name :: rest => childPath rel name :: regularFiles rel rest
  | rel, .symlink _ :: rest => regularFiles rel rest
  | rel, .dir name entries :: rest =>
      regularFiles (childPath rel name) entries ++ regularFiles rel rest

/-! ### Source file model (`src/source_file.rs`) -/

/-- `SourceFile`: a path plus the language detected from its extension at
construction time (`None` when the extension is unknown). -/
structure SourceFile where
  path : String
  language : Option Lang
deriving DecidableEq, Repr

/-- Error kinds of `error.rs` relevant to the surveyed sources. -/
inductive VError where
  | ioRead (path : String)
  | unparseable (path : String)
  | unparseableAsLanguage (path : String) (language : Lang)
  | languageErr (language : Lang)
deriving DecidableEq, Repr

/-- Result of a fallible engine step: `ok` models `Ok`, `fatal` models an
`Err` propagated with `?`, and `panicked` models a `panic` (which aborts
the process and is therefore never observable as a value). -/
inductive Outcome (α : Type) where
  | ok (value : α)
  | fatal (error : VError)
  | panicked (message : String)
deriving DecidableEq, Repr

def Outcome.bind : Outcome α → (α → Outcome β) → Outcome β
  | .ok a, f => f a
  | .fatal e, _ => .fatal e
  | .panicked m, _ => .panicked m

instance : Monad Outcome where
  pure := Outcome.ok
  bind := Outcome.bind

/-- The external capabilities `SourceFile::parse` relies on:
`fs::read_to_string` (`none` models an I/O failure or non-UTF-8 content),
`Parser::set_language` success, and the language's parser itself (`none`
models the "unexpected parser failure" case). -/
structure ParseEnv where
  readToString : String → Option String
  setLanguageOk : Lang → Bool
  parseTree : Lang → String → Option Tree

/-- `SourceFile::parse` from `src/source_file.rs`: read the content (I/O
error on failure), fail with `Unparseable` when no language is known, set up
the language's parser (`Error::Language` on failure, `panic` when the parser
returns no tree), reject the file with `UnparseableAsLanguage` when the tree
reports an error node, and otherwise return the `ParsedSourceFile`. -/
def SourceFile.parse (env : ParseEnv) (f : SourceFile) : Outcome ParsedSourceFile :=
  match env.readToString f.path with
  | none => .fatal (.ioRead f.path)
  | some content =>
    match f.language with
    | none => .fatal (.unparseable f.path)
    | some language =>
      if env.setLanguageOk language then
        match env.parseTree language content with
        | none => .panicked "unexpected parser failure"
        | some tree =>
          if tree.hasError then .fatal (.unparseableAsLanguage f.path language)
          else .ok { path := f.path, content := content, language := language, tree := tree }
      else .fatal (.languageErr language)

/-! ### Events, intents and the scan loop (`vex` in `src/main.rs`) -/

/-- `Intent` as consumed by `vex`: register a query (`Find`), register an
observer (`Observe` — only legal during init, never here), or emit a
diagnostic (`Warn`).  Query text is carried as a string; callbacks and
observers are identified by opaque ids. -/
inductive Intent where
  | find (language : Lang) (query : String) (on_match : Nat)
  | observe (event : String) (observer : Nat)
  | warn (irr : Irritation)
deriving DecidableEq, Repr

def Intent.isWarn : Intent → Bool
  | .warn _ => true
  | _ => false

/-- The `Warn` payloads of an intent list, in order. -/
def warnsOf (intents : List Intent) : List Irritation :=
  intents.filterMap fun i =>
    match i with
    | .warn irr => some irr
    | _ => none

/-- Informational log events of the scan loop (the `info!` side effects the
spec treats as observable). -/
inductive LogEvent where
  | skipping (path : String)
  | parsing (path : String)
deriving DecidableEq, Repr

/-- The intent-collection loop run on the result of dispatching
`OpenProject` or `OpenFile` (`main.rs` lines 187–195 and 214–222): `Find`
intents are pushed onto the query list, `Warn` intents onto the irritation
list, and an `Observe` intent hits `panic("internal error: non-init
observe")`. -/
def collectOpenIntents : List Intent → Outcome (List (Lang × String × Nat) × List Irritation)
  | [] => .ok ([], [])
  | .find language query on_match :: rest => do
      let (qs, irrs) ← collectOpenIntents rest
      pure ((language, query, on_match) :: qs, irrs)
  | .observe _ _ :: _ => .panicked "internal error: non-init observe"
  | .warn irr :: rest => do
      let (qs, irrs) ← collectOpenIntents rest
      pure (qs, irr :: irrs)

/-- The intent-collection loop run on the result of dispatching a `Match`
event to a query's callback (`main.rs` lines 252–260): only `Warn` intents
are collected; `Find` hits `panic("internal error: find intended during
find")` and `Observe` hits `panic("internal error: non-init observe")`. -/
def collectMatchIntents : List Intent → Outcome (List Irritation)
  | [] => .ok []
  | .find _ _ _ :: _ => .panicked "internal error: find intended during find"
  | .observe _ _ :: _ => .panicked "internal error: non-init observe"
  | .warn irr :: rest => do
      let irrs ← collectMatchIntents rest
      pure (irr :: irrs)

/-- The scan-time capabilities of `vex`: the parse capabilities, the
observer dispatches for `OpenProject`/`OpenFile`/`Match` events (each a
`handle(...)` call returning intents, fallible with `?`), and the query
matches `QueryCursor::matches` enumerates on a parsed tree. -/
structure ScanEnv where
  parseEnv : ParseEnv
  openProjectIntents : Outcome (List Intent)
  openFileIntents : String → Outcome (List Intent)
  queryMatches : String → Tree → List Nat
  onMatchIntents : Nat → String → Nat → Outcome (List Intent)

/-- Dispatch of every match of one query to its callback, collecting the
resulting irritations in order. -/
def runMatches (env : ScanEnv) (path : String) (on_match : Nat) :
    List Nat → Outcome (List Irritation)
  | [] => .ok []
  | m :: ms => do
      let intents ← env.onMatchIntents on_match path m
      let irrs ← collectMatchIntents intents
      let rest ← runMatches env path on_match ms
      pure (irrs ++ rest)

/-- The per-file query loop of `vex`: each query of the (already
language-filtered) list is run against the parsed tree and every match is
dispatched to the query's callback. -/
def runQueries (env : ScanEnv) (parsed : ParsedSourceFile) :
    List (Lang × String × Nat) → Outcome (List Irritation)
  | [] => .ok []
  | (_, query, on_match) :: qs => do
      let irrs ← runMatches env parsed.path on_match (env.queryMatches query parsed.tree)
      let rest ← runQueries env parsed qs
      pure (irrs ++ rest)

/-- Mutable state of the scan loop: the accumulated irritations and the
informational log. -/
structure ScanState where
  irritations : List Irritation
  log : List LogEvent
deriving DecidableEq, Repr

/-- The body of the per-file loop of `vex` (`main.rs` lines 199–266): skip
files with no known language (informational only); dispatch `OpenFile` and
collect its `Find`/`Warn` intents; skip without parsing when no query of the
combined project/file sets targets the file's language; otherwise parse and
run every matching query.  The `.parsing` log entry models the
`info!("parsing {}")` emitted at the head of `SourceFile::parse`. -/
def processFile (env : ScanEnv) (projectQueries : List (Lang × String × Nat))
    (st : ScanState) (file : SourceFile) : Outcome ScanState :=
  match file.language with
  | none => .ok { st with log := st.log ++ [.skipping file.path] }
  | some language => do
      let intents ← env.openFileIntents file.path
      let (fileQueries, warns) ← collectOpenIntents intents
      let st1 : ScanState := { st with irritations := st.irritations ++ warns }
      if (projectQueries ++ fileQueries).all (fun q => q.1 != language) then
        pure st1
      else do
        let st2 : ScanState := { st1 with log := st1.log ++ [.parsing file.path] }
        let parsed ← SourceFile.parse env.parseEnv file
        let irrs ← runQueries env parsed
          ((projectQueries ++ fileQueries).filter (fun q => q.1 == language))
        pure { st2 with irritations := st2.irritations ++ irrs }

/-- `MaxProblems` from the CLI surface: unlimited, or a cap. -/
inductive MaxProblems where
  | unlimited
  | limited (n : Nat)
deriving DecidableEq, Repr

/-- The diagnostic-collector tail of `vex` (`main.rs` lines 268–274):
`irritations.sort()` (a stable sort by the total order) followed by
`truncate(max)` when a limit is configured and exceeded. -/
def finalize (max_problems : MaxProblems) (irritations : List Irritation) : List Irritation :=
  let sorted := irritations.mergeSort
  match max_problems with
  | .unlimited => sorted
  | .limited max => if max < sorted.length then sorted.take max else sorted

/-- `RunData` from `main.rs`. -/
structure RunData where
  irritations : List Irritation
  num_files_scanned : Nat
deriving DecidableEq, Repr

/-- The whole scan (`vex` in `main.rs`, with discovery factored out into the
`files` argument): dispatch `OpenProject` once and collect its project-level
queries and warns, run the per-file loop over every discovered file, then
sort and cap the collected irritations.  The log of informational events is
returned alongside. -/
def vex (env : ScanEnv) (files : List SourceFile) (max_problems : MaxProblems) :
    Outcome (RunData × List LogEvent) := do
  let intents ← env.openProjectIntents
  let (projectQueries, warns) ← collectOpenIntents intents
  let st ← files.foldlM (processFile env projectQueries) ⟨warns, []⟩
  pure (⟨finalize max_problems st.irritations, files.length⟩, st.log)

/-! ### Concrete sample data used by witnesses and counterexamples -/

def irrA : Irritation := ⟨"a.rs", ⟨0, 0, 0, 1⟩, "m1"⟩

def irrB : Irritation := ⟨"b.rs", ⟨1, 0, 1, 1⟩, "m2"⟩

def sampleFile : ParsedSourceFile :=
  { path := "src/main.rs", content := "fn main() ..", language := "rust", tree := ⟨0, false⟩ }

def sampleFileOther : ParsedSourceFile :=
  { path := "src/main.rs", content := "fn main() 1", language := "rust", tree := ⟨0, false⟩ }

def nodeA : Node := ⟨⟨7, ⟨0, 3⟩, ⟨0, 7⟩⟩, sampleFile⟩

def nodeB : Node := ⟨⟨7, ⟨0, 3⟩, ⟨0, 7⟩⟩, sampleFileOther⟩

def nodeC : Node := ⟨⟨8, ⟨0, 3⟩, ⟨0, 7⟩⟩, sampleFile⟩

def envNoRead : ParseEnv := ⟨fun _ => none, fun _ => true, fun _ _ => some ⟨0, false⟩⟩

def envReadOk : ParseEnv :=
  ⟨fun _ => some "fn main() ..", fun _ => true, fun _ _ => some ⟨0, false⟩⟩

def envReadBroken : ParseEnv :=
  ⟨fun _ => some "fn main() ._", fun _ => true, fun _ _ => some ⟨0, true⟩⟩

def scanEnvA : ScanEnv :=
  ⟨envReadOk, .ok [], fun _ => .ok [.warn irrA, .find "go" "(q)" 0], fun _ _ => [],
    fun _ _ _ => .ok []⟩

def scanEnvB : ScanEnv :=
  ⟨envNoRead, .panicked "x", fun _ => .fatal (.ioRead "p"), fun _ _ => [0],
    fun _ _ _ => .ok [.observe "e" 0]⟩

def rustFile : SourceFile := ⟨"src/main.rs", some "rust"⟩

def unknownFile : SourceFile := ⟨"data.bin", none⟩

def alwSample : List FilePattern := [fun p => p == "/.keep"]

/-! ### Helper lemmas -/

@[simp] theorem Outcome.bind_ok (a : α) (f : α → Outcome β) :
    (Outcome.ok a >>= f) = f a := rfl

@[simp] theorem Outcome.bind_fatal (e : VError) (f : α → Outcome β) :
    (Outcome.fatal e >>= f) = Outcome.fatal e := rfl

@[simp] theorem Outcome.bind_panicked (m : String) (f : α → Outcome β) :
    (Outcome.panicked m >>= f) = Outcome.panicked m := rfl

@[simp] theorem Outcome.pure_eq (a : α) : (pure a : Outcome α) = Outcome.ok a := rfl

theorem sorted_mergeSortIrr (l : List Irritation) : (l.mergeSort).Sorted (· ≤ ·) :=
  List.sorted_mergeSort' l

theorem mergeSortIrr_perm_inv {l l' : List Irritation} (h : l.Perm l') :
    l.mergeSort = l'.mergeSort :=
  List.eq_of_perm_of_sorted
    ((List.mergeSort_perm l _).trans (h.trans (List.mergeSort_perm l' _).symm))
    (sorted_mergeSortIrr l) (sorted_mergeSortIrr l')

theorem walkForest_sub (ign alw : List FilePattern) :
    ∀ rel es p, p ∈ walkForest ign alw rel es → p ∈ regularFiles rel es := by
  intro rel es
  induction rel, es using walkForest.induct ign alw with
  | case1 rel => simp [walkForest]
  | case2 rel name rest ih =>
      intro p h
      rw [walkForest] at h
      rcases List.mem_append.mp h with h1 | h2
      · rcases List.mem_ite_nil_left.mp h1 with ⟨_, h1⟩
        simp [regularFiles]
        left
        simpa using h1
      · simp [regularFiles]
        right
        exact ih p h2
  | case3 rel name rest ih =>
      intro p h
      rw [walkForest] at h
      simp [regularFiles]
      exact ih p h
  | case4 rel name entries rest ih1 ih2 =>
      intro p h
      rw [walkForest] at h
      rcases List.mem_append.mp h with h1 | h2
      · rcases List.mem_ite_nil_left.mp h1 with ⟨_, h1⟩
        simp [regularFiles]
        left
        exact ih1 p h1
      · simp [regularFiles]
        right
        exact ih2 p h2

/-! ### Claim theorems -/

/-- C1: after the scan completes the collected irritations are sorted by
their total order; when `max_problems` is `Limited n` with `n` smaller than
the number of collected irritations, exactly `n` irritations are returned
and they are the `n` smallest under that order, independent of the order in
which files were scanned or diagnostics emitted (the result is invariant
under permutation of the collected list). -/
theorem vex_max_problems_sorted_cap (mp : MaxProblems) (irrs irrs' : List Irritation)
    (hperm : irrs.Perm irrs') :
    finalize mp irrs = finalize mp irrs' ∧
    (finalize mp irrs).Sorted (· ≤ ·) ∧
    ∀ n, mp = .limited n → n < irrs.length →
      (finalize mp irrs).length = n ∧
      ∃ rest, irrs.Perm (finalize mp irrs ++ rest) ∧
        ∀ a ∈ finalize mp irrs, ∀ b ∈ rest, a ≤ b := by
  have hs := sorted_mergeSortIrr irrs
  have hlen : (irrs.mergeSort).length = irrs.length := List.length_mergeSort irrs
  refine ⟨?_, ?_, ?_⟩
  · unfold finalize
    rw [mergeSortIrr_perm_inv hperm]
  · unfold finalize
    cases mp with
    | unlimited => exact hs
    | limited n =>
      simp only
      split
      · exact List.Pairwise.sublist (List.take_sublist n _) hs
      · exact hs
  · intro n hmp hn
    subst hmp
    have hcond : n < (irrs.mergeSort).length := by omega
    have hfin : finalize (.limited n) irrs = (irrs.mergeSort).take n := by
      simp [finalize, hcond]
    refine ⟨?_, (irrs.mergeSort).drop n, ?_, ?_⟩
    · rw [hfin, List.length_take]
      omega
    · rw [hfin, List.take_append_drop]
      exact (List.mergeSort_perm irrs _).symm
    · rw [hfin]
      have hp : ((irrs.mergeSort).take n ++ (irrs.mergeSort).drop n).Pairwise (· ≤ ·) := by
        rw [List.take_append_drop]
        exact hs
      exact fun a ha b hb => (List.pairwise_append.mp hp).2.2 a ha b hb

theorem vex_max_problems_sorted_cap_witness :
    finalize (.limited 1) [irrB, irrA] = finalize (.limited 1) [irrA, irrB] ∧
    (finalize (.limited 1) [irrB, irrA]).length = 1 :=
  ⟨(vex_max_problems_sorted_cap (.limited 1) [irrB, irrA] [irrA, irrB] (by decide)).1,
   ((vex_max_problems_sorted_cap (.limited 1) [irrB, irrA] [irrA, irrB] (by decide)).2.2
     1 rfl (by decide)).1⟩

/-- C2: for a discovered file with a known language, when the combined
project-level and file-level query sets contain no query whose declared
language equals the file's language, the file is skipped without parsing:
the per-file step succeeds having only appended the `OpenFile` warns, and
the log (hence the set of parsed files) is unchanged. -/
theorem processFile_skips_when_no_query_targets_language (env : ScanEnv)
    (pq : List (Lang × String × Nat)) (st : ScanState)
    (file : SourceFile) (language : Lang) (intents : List Intent)
    (fq : List (Lang × String × Nat)) (warns : List Irritation)
    (hlang : file.language = some language)
    (hdisp : env.openFileIntents file.path = .ok intents)
    (hcollect : collectOpenIntents intents = .ok (fq, warns))
    (hnone : (pq ++ fq).all (fun q => q.1 != language) = true) :
    processFile env pq st file = .ok { st with irritations := st.irritations ++ warns } ∧
    ∀ st', processFile env pq st file = .ok st' → st'.log = st.log := by
  have h1 : processFile env pq st file =
      .ok { st with irritations := st.irritations ++ warns } := by
    simp [processFile, hlang, hdisp, hcollect, hnone]
  refine ⟨h1, fun st' h => ?_⟩
  rw [h1] at h
  cases h
  rfl

theorem processFile_skips_when_no_query_targets_language_witness :
    processFile scanEnvA [("python", "(p)", 1)] ⟨[], []⟩ rustFile = .ok ⟨[irrA], []⟩ := by
  have h := (processFile_skips_when_no_query_targets_language scanEnvA
    [("python", "(p)", 1)] ⟨[], []⟩ rustFile "rust"
    [.warn irrA, .find "go" "(q)" 0] [("go", "(q)", 0)] [irrA]
    rfl rfl (by decide) (by decide)).1
  simpa using h

/-- C3: when a `Match` event's intents are collected, only `Warn` intents
enter the diagnostic list; any `Find` or `Observe` intent makes the
collection panic ("internal error"), and in that case the result is neither
an `ok` diagnostic list nor a recoverable (`fatal`) user-facing error. -/
theorem match_dispatch_collects_only_warns (intents : List Intent) :
    ((∀ i ∈ intents, i.isWarn = true) → collectMatchIntents intents = .ok (warnsOf intents)) ∧
    ((∃ i ∈ intents, i.isWarn = false) →
      ∃ msg, collectMatchIntents intents = .panicked msg ∧
        (∀ irrs, collectMatchIntents intents ≠ .ok irrs) ∧
        (∀ e, collectMatchIntents intents ≠ .fatal e)) := by
  induction intents with
  | nil => simp [collectMatchIntents, warnsOf]
  | cons i rest ih =>
    cases i with
    | find l q cb => simp [collectMatchIntents, Intent.isWarn]
    | observe e o => simp [collectMatchIntents, Intent.isWarn]
    | warn irr =>
      constructor
      · intro h
        have hrest := ih.1 (fun j hj => h j (List.mem_cons_of_mem _ hj))
        simp [collectMatchIntents, hrest, warnsOf]
      · rintro ⟨j, hj, hw⟩
        rcases List.mem_cons.mp hj with rfl | hj'
        · simp [Intent.isWarn] at hw
        · obtain ⟨msg, hmsg, _, _⟩ := ih.2 ⟨j, hj', hw⟩
          exact ⟨msg, by simp [collectMatchIntents, hmsg],
            by simp [collectMatchIntents, hmsg],
            by simp [collectMatchIntents, hmsg]⟩

theorem match_dispatch_collects_only_warns_witness :
    collectMatchIntents [Intent.warn irrA] = .ok [irrA] ∧
    ∃ msg, collectMatchIntents [Intent.warn irrA, Intent.find "rust" "(q)" 0] =
      .panicked msg :=
  ⟨by simpa [warnsOf] using (match_dispatch_collects_only_warns [Intent.warn irrA]).1 (by decide),
   match (match_dispatch_collects_only_warns [Intent.warn irrA, Intent.find "rust" "(q)" 0]).2
       ⟨Intent.find "rust" "(q)" 0, by simp, by decide⟩ with
   | ⟨msg, hmsg, _, _⟩ => ⟨msg, hmsg⟩⟩

/-- C4: `SourceFile::parse` fails with an I/O error when the file cannot be
read as UTF-8, with `Unparseable` when no language is known, and with
`UnparseableAsLanguage` when the parsed tree reports an internal error node
(the file is rejected outright); otherwise (grammar loads, parser yields a
tree, tree error-free) it returns a `ParsedSourceFile` carrying the file's
path, the read content, the detected language and the parsed tree. -/
theorem parse_error_classification (env : ParseEnv) (f : SourceFile) :
    (env.readToString f.path = none → f.parse env = .fatal (.ioRead f.path)) ∧
    (∀ content, env.readToString f.path = some content → f.language = none →
      f.parse env = .fatal (.unparseable f.path)) ∧
    (∀ content language tree, env.readToString f.path = some content →
      f.language = some language → env.setLanguageOk language = true →
      env.parseTree language content = some tree →
      (tree.hasError = true → f.parse env = .fatal (.unparseableAsLanguage f.path language)) ∧
      (tree.hasError = false →
        f.parse env = .ok ⟨f.path, content, language, tree⟩)) := by
  refine ⟨fun h => ?_, fun c hc hl => ?_,
    fun c lang tree hc hl hset htree => ⟨fun herr => ?_, fun hok => ?_⟩⟩
  · simp [SourceFile.parse, h]
  · simp [SourceFile.parse, hc, hl]
  · simp [SourceFile.parse, hc, hl, hset, htree, herr]
  · simp [SourceFile.parse, hc, hl, hset, htree, hok]

theorem parse_error_classification_witness :
    rustFile.parse envNoRead = .fatal (.ioRead "src/main.rs") ∧
    rustFile.parse envReadBroken = .fatal (.unparseableAsLanguage "src/main.rs" "rust") ∧
    rustFile.parse envReadOk = .ok ⟨"src/main.rs", "fn main() ..", "rust", ⟨0, false⟩⟩ :=
  ⟨(parse_error_classification envNoRead rustFile).1 rfl,
   ((parse_error_classification envReadBroken rustFile).2.2
     "fn main() ._" "rust" ⟨0, true⟩ rfl rfl rfl rfl).1 rfl,
   ((parse_error_classification envReadOk rustFile).2.2
     "fn main() .." "rust" ⟨0, false⟩ rfl rfl rfl rfl).2 rfl⟩

/-- C5: during traversal an entry whose project-relative path matches an
allow pattern is always visited (file pushed, directory recursed, symlink
handled) regardless of ignore patterns or a leading-dot base name; any other
entry whose base name starts with `.` or whose project-relative path matches
an ignore pattern contributes nothing — a skipped directory is pruned
entirely, never descended into. -/
theorem walkdir_allow_overrides_ignore_and_hidden (ign alw : List FilePattern)
    (rel : String) (e : FSEntry) (rest : List FSEntry) :
    (alw.any (fun p => p (childPath rel e.name)) = true →
      walkForest ign alw rel (e :: rest) =
        visitEntry ign alw rel e ++ walkForest ign alw rel rest) ∧
    (alw.any (fun p => p (childPath rel e.name)) = false →
      (startsWithDot e.name || ign.any (fun p => p (childPath rel e.name))) = true →
      walkForest ign alw rel (e :: rest) = walkForest ign alw rel rest) := by
  cases e with
  | file name =>
      refine ⟨fun h => ?_, fun h h2 => ?_⟩
      · simp only [FSEntry.name] at h
        have hs : skipped ign alw (childPath rel name) name = false := by
          simp [skipped, h]
        simp [walkForest, visitEntry, FSEntry.name, hs]
      · simp only [FSEntry.name] at h h2
        have hs : skipped ign alw (childPath rel name) name = true := by
          simp only [skipped, h, h2, Bool.not_false, Bool.true_and]
        simp [walkForest, FSEntry.name, hs]
  | symlink name =>
      refine ⟨fun h => ?_, fun h h2 => ?_⟩ <;>
        simp [walkForest, visitEntry, skipped, FSEntry.name]
  | dir name entries =>
      refine ⟨fun h => ?_, fun h h2 => ?_⟩
      · simp only [FSEntry.name] at h
        have hs : skipped ign alw (childPath rel name) name = false := by
          simp [skipped, h]
        simp [walkForest, visitEntry, FSEntry.name, hs]
      · simp only [FSEntry.name] at h h2
        have hs : skipped ign alw (childPath rel name) name = true := by
          simp only [skipped, h, h2, Bool.not_false, Bool.true_and]
        simp [walkForest, FSEntry.name, hs]

theorem walkdir_allow_overrides_ignore_and_hidden_witness :
    walkForest [] alwSample "" [.file ".keep"] =
      visitEntry [] alwSample "" (.file ".keep") ++ walkForest [] alwSample "" [] ∧
    walkForest [] alwSample "" [.file ".skipme"] = walkForest [] alwSample "" [] :=
  ⟨(walkdir_allow_overrides_ignore_and_hidden [] alwSample "" (.file ".keep") []).1
     (by decide),
   (walkdir_allow_overrides_ignore_and_hidden [] alwSample "" (.file ".skipme") []).2
     (by decide) (by decide)⟩

/-- C6: discovery never follows symbolic links — a symlink entry is neither
recursed into nor added to the discovered list (it contributes nothing, even
when allow-matched, since the equation holds for every pattern list) — and
every path produced by the walk is the path of a regular (non-symlink)
file of the tree. -/
theorem walkdir_never_follows_symlinks (ign alw : List FilePattern) (rel name : String)
    (rest : List FSEntry) (es : List FSEntry) :
    walkForest ign alw rel (.symlink name :: rest) = walkForest ign alw rel rest ∧
    ∀ p ∈ walkForest ign alw rel es, p ∈ regularFiles rel es :=
  ⟨by rw [walkForest], walkForest_sub ign alw rel es⟩

theorem walkdir_never_follows_symlinks_witness :
    walkForest [] [] "" [.symlink "ln", .file "a.rs"] = walkForest [] [] "" [.file "a.rs"] ∧
    "/a.rs" ∈ regularFiles "" [FSEntry.symlink "ln", FSEntry.file "a.rs"] :=
  ⟨(walkdir_never_follows_symlinks [] [] "" "ln" [.file "a.rs"] []).1,
   (walkdir_never_follows_symlinks [] [] "" "ln" []
       [FSEntry.symlink "ln", FSEntry.file "a.rs"]).2 "/a.rs"
     (by simp [walkForest, skipped, childPath, startsWithDot])⟩

/-- C7: a discovered file whose language is unknown is skipped with only an
informational log entry: no `OpenFile` event is dispatched for it (the
per-file step does not depend on the scan environment at all), it is never
parsed, and it contributes no diagnostics. -/
theorem unknown_language_skipped_without_dispatch (file : SourceFile)
    (hlang : file.language = none) :
    ∀ env env' : ScanEnv, ∀ pq pq' : List (Lang × String × Nat), ∀ st : ScanState,
      processFile env pq st file = .ok { st with log := st.log ++ [.skipping file.path] } ∧
      processFile env pq st file = processFile env' pq' st file := by
  intro env env' pq pq' st
  constructor <;> simp [processFile, hlang]

theorem unknown_language_skipped_without_dispatch_witness :
    processFile scanEnvA [] ⟨[], []⟩ unknownFile = .ok ⟨[], [.skipping "data.bin"]⟩ ∧
    processFile scanEnvA [] ⟨[], []⟩ unknownFile =
      processFile scanEnvB [("rust", "(q)", 0)] ⟨[], []⟩ unknownFile :=
  ⟨(unknown_language_skipped_without_dispatch unknownFile rfl scanEnvA scanEnvB
      [] [("rust", "(q)", 0)] ⟨[], []⟩).1,
   (unknown_language_skipped_without_dispatch unknownFile rfl scanEnvA scanEnvB
      [] [("rust", "(q)", 0)] ⟨[], []⟩).2⟩

/-- C8 counterexample: the claim that `Node` equality is determined by the
tree-sitter node id alone is false: these two nodes have equal ids but
compare unequal, because the derived equality also compares the containing
parsed file, whose content differs. -/
theorem node_equality_not_id_only_ce :
    TSNode.eqTS nodeA.ts_node nodeB.ts_node = true ∧ Node.eqNode nodeA nodeB = false := by
  decide

/-- C8 (amended): `Node` equality compares the tree-sitter node id together
with the containing parsed file's identity (path, content, language); for
two nodes of the same parsed file it is determined by the node id alone;
hashing is determined by the node id alone and never by content; two
syntactically identical but distinct nodes (different ids) compare
unequal. -/
theorem node_equality_id_and_file (a b : Node) :
    Node.eqNode a b =
      (TSNode.eqTS a.ts_node b.ts_node && ParsedSourceFile.eqPS a.source_file b.source_file) ∧
    (ParsedSourceFile.eqPS a.source_file b.source_file = true →
      Node.eqNode a b = (a.ts_node.id == b.ts_node.id)) ∧
    Node.hashInput a = a.ts_node.id ∧
    (a.ts_node.id ≠ b.ts_node.id → Node.eqNode a b = false) := by
  refine ⟨rfl, fun h => ?_, rfl, fun h => ?_⟩
  · simp [Node.eqNode, h, TSNode.eqTS]
  · simp [Node.eqNode, TSNode.eqTS, h]

theorem node_equality_id_and_file_witness :
    Node.eqNode nodeA nodeC = (nodeA.ts_node.id == nodeC.ts_node.id) ∧
    Node.eqNode nodeA nodeC = false :=
  ⟨(node_equality_id_and_file nodeA nodeC).2.1 (by decide),
   (node_equality_id_and_file nodeA nodeC).2.2.2 (by decide)⟩

/-- C9: the `Location` of a captured node carries the 0-indexed start/end
rows and columns exactly as the parser reports the node's start and end
positions, and its display form is exactly
`[start_row, start_col] - [end_row, end_col]` (checked both symbolically and
on the concrete location `[1, 12] - [1, 23]` of the repository's own
test). -/
theorem location_of_node_and_display (n : Node) :
    Location.of n = ⟨n.ts_node.startPosition.row, n.ts_node.startPosition.column,
      n.ts_node.endPosition.row, n.ts_node.endPosition.column⟩ ∧
    (Location.of n).display =
      "[" ++ toString (Location.of n).start_row ++ ", " ++
        toString (Location.of n).start_column ++ "] - [" ++
        toString (Location.of n).end_row ++ ", " ++
        toString (Location.of n).end_column ++ "]" ∧
    Location.display ⟨1, 12, 1, 23⟩ = "[1, 12] - [1, 23]" :=
  ⟨rfl, rfl, by decide⟩

/-- C10: `SourceFile::parse` reads the file's content before checking
whether a language is known: for a file with no detected language a read
failure yields the I/O error, and the `Unparseable` error is produced
exactly when the read succeeds. -/
theorem parse_reads_before_language_check (env : ParseEnv) (f : SourceFile)
    (hlang : f.language = none) :
    (env.readToString f.path = none → f.parse env = .fatal (.ioRead f.path)) ∧
    (∀ content, env.readToString f.path = some content →
      f.parse env = .fatal (.unparseable f.path)) ∧
    (f.parse env = .fatal (.unparseable f.path) →
      ∃ content, env.readToString f.path = some content) := by
  refine ⟨fun h => by simp [SourceFile.parse, h],
    fun c hc => by simp [SourceFile.parse, hc, hlang], fun h => ?_⟩
  cases hr : env.readToString f.path with
  | none => rw [SourceFile.parse, hr] at h; cases h
  | some c => exact ⟨c, rfl⟩

theorem parse_reads_before_language_check_witness :
    unknownFile.parse envNoRead = .fatal (.ioRead "data.bin") ∧
    unknownFile.parse envReadOk = .fatal (.unparseable "data.bin") :=
  ⟨(parse_reads_before_language_check envNoRead unknownFile rfl).1 rfl,
   (parse_reads_before_language_check envReadOk unknownFile rfl).2.1 "fn main() .." rfl⟩

end Vex
